import Mathlib

/-!
Shallow embedding of the file-explorer core of the Loong-Tu-Ge repository
(`src/components/FileExplorer.vue`, script section).  JavaScript strings are
modelled as `List Char`; the reactive refs (`rootFiles`, `currentPath`,
`searchQuery`, `showPdfViewer`, `currentPdfSrc`) become the fields of
`ExplorerState`; the computed properties and event handlers become pure
functions on that state.
-/

/-- JavaScript strings are modelled as lists of characters. -/
abbrev Str := List Char

/-- Model of `String.prototype.toLowerCase()`. -/
def toLower (s : Str) : Str := s.map Char.toLower

/-- Model of `String.prototype.startsWith(q)`: the second list is an initial
segment of the first. -/
def strStartsWith : Str → Str → Bool
  | _, [] => true
  | [], _ :: _ => false
  | a :: as, b :: bs => a == b && strStartsWith as bs

/-- Model of `String.prototype.includes(q)`: the second list occurs as a
contiguous run inside the first. -/
def strIncludes : Str → Str → Bool
  | [], q => q.isEmpty
  | a :: t, q => strStartsWith (a :: t) q || strIncludes t q

/-- The `type` discriminator of the TypeScript `FileNode` interface:
`'directory' | 'file'`. -/
inductive NodeType where
  | directory
  | file
deriving DecidableEq, Repr

/-- The TypeScript `FileNode` interface: `name`, `type`, `path` are required,
`extension` and `children` are optional fields. -/
inductive FileNode where
  | mk (name : Str) (type : NodeType) (path : Str)
       (extension : Option Str) (children : Option (List FileNode)) : FileNode

/-- Field accessor for `FileNode.name`. -/
def FileNode.name : FileNode → Str
  | .mk n _ _ _ _ => n

/-- Field accessor for `FileNode.type`. -/
def FileNode.type : FileNode → NodeType
  | .mk _ t _ _ _ => t

/-- Field accessor for `FileNode.path`. -/
def FileNode.path : FileNode → Str
  | .mk _ _ p _ _ => p

/-- Field accessor for `FileNode.extension`. -/
def FileNode.extension : FileNode → Option Str
  | .mk _ _ _ e _ => e

/-- Field accessor for `FileNode.children`. -/
def FileNode.children : FileNode → Option (List FileNode)
  | .mk _ _ _ _ c => c

/-- The component's reactive state: the refs declared at the top of the
script section of `FileExplorer.vue`. -/
structure ExplorerState where
  rootFiles : List FileNode
  currentPath : List Str
  searchQuery : Str
  showPdfViewer : Bool
  currentPdfSrc : Str

/-- The loop body of the `currentItems` computed property: walk the segment
list, at each level `find` the first item whose `name` equals the segment and
whose `type` is `'directory'`; descend into its `children` when that field is
present, otherwise return `[]`. -/
def resolvePath : List FileNode → List Str → List FileNode
  | items, [] => items
  | items, folder :: rest =>
    match items.find? (fun i => i.name == folder && i.type == NodeType.directory) with
    | some found =>
      match found.children with
      | some cs => resolvePath cs rest
      | none => []
    | none => []

/-- The `currentItems` computed property of `FileExplorer.vue`. -/
def currentItems (s : ExplorerState) : List FileNode :=
  resolvePath s.rootFiles s.currentPath

/-- The `searchRecursive` function of `FileExplorer.vue`: pre-order walk that
keeps every node whose lower-cased name includes the query, descending into
`children` when the node is a directory and the field is present. -/
def searchRecursive : List FileNode → Str → List FileNode
  | [], _ => []
  | FileNode.mk n t p e c :: rest, q =>
    (if strIncludes (toLower n) q then [FileNode.mk n t p e c] else []) ++
    ((if t == NodeType.directory then
        match c with
        | some cs => searchRecursive cs q
        | none => []
      else []) ++
     searchRecursive rest q)

/-- The `filteredItems` computed property: lower-case the query; an empty
query yields `currentItems`, otherwise a global `searchRecursive` over the
root forest. -/
def filteredItems (s : ExplorerState) : List FileNode :=
  let query := toLower s.searchQuery
  if query.isEmpty then currentItems s
  else searchRecursive s.rootFiles query

/-- The `handleItemClick` handler: directories navigate (path-split when a
query is active, push otherwise), `.pdf` files open the viewer on
`./Files/` + path, anything else does nothing. -/
def handleItemClick (s : ExplorerState) (item : FileNode) : ExplorerState :=
  if item.type == NodeType.directory then
    if !s.searchQuery.isEmpty then
      { s with currentPath := (List.splitOn '/' item.path).filter (fun p => !p.isEmpty),
               searchQuery := [] }
    else
      { s with currentPath := s.currentPath ++ [item.name] }
  else if item.extension == some ".pdf".toList then
    { s with currentPdfSrc := "./Files/".toList ++ item.path,
             showPdfViewer := true }
  else
    s

/-- The `goBack` handler: pop the last path segment when the path is
non-empty. -/
def goBack (s : ExplorerState) : ExplorerState :=
  if s.currentPath.length > 0 then
    { s with currentPath := s.currentPath.dropLast }
  else
    s

/-- JavaScript `Array.prototype.slice(0, e)` with a possibly negative end
index: a negative `e` counts from the end of the array, clamped at zero. -/
def sliceTo (l : List Str) (e : Int) : List Str :=
  if e < 0 then l.take (l.length - (-e).toNat) else l.take e.toNat

/-- The `navigateTo` breadcrumb handler: `-1` resets to the root, any other
index truncates `currentPath` with `slice(0, index + 1)`. -/
def navigateTo (s : ExplorerState) (index : Int) : ExplorerState :=
  if index = -1 then
    { s with currentPath := [] }
  else
    { s with currentPath := sliceTo s.currentPath (index + 1) }

/-- The children list of a node, read as `[]` when the optional field is
absent. -/
def childrenList : FileNode → List FileNode
  | .mk _ _ _ _ none => []
  | .mk _ _ _ _ (some cs) => cs

/-- Pre-order enumeration of every node at any depth of a forest: each node
is listed before the nodes found under its `children` field, and before its
later siblings. -/
def allNodes : List FileNode → List FileNode
  | [] => []
  | FileNode.mk n t p e none :: rest =>
    FileNode.mk n t p e none :: allNodes rest
  | FileNode.mk n t p e (some cs) :: rest =>
    FileNode.mk n t p e (some cs) :: (allNodes cs ++ allNodes rest)

/-- Structural invariants of the loaded tree, as stated by the data model: a
directory node always carries a `children` field, a file node never does, and
no two sibling directories share a name. -/
def wfForest : List FileNode → Bool
  | [] => true
  | FileNode.mk n t _p _e c :: rest =>
    (match t, c with
     | NodeType.directory, some cs => wfForest cs
     | NodeType.directory, none => false
     | NodeType.file, none => true
     | NodeType.file, some _ => false) &&
    rest.all (fun b => !(t == NodeType.directory && b.type == NodeType.directory && n == b.name)) &&
    wfForest rest

/-- An actual chain of directory nodes through a forest: `Chain items segs
result` holds when following the name segments `segs` from the level `items`,
each segment naming a directory node present at that level, ends at the
children sequence `result`. -/
inductive Chain : List FileNode → List Str → List FileNode → Prop where
  | nil (items : List FileNode) : Chain items [] items
  | cons (items : List FileNode) (node : FileNode) (cs : List FileNode)
      (rest : List Str) (result : List FileNode) :
      node ∈ items → node.type = NodeType.directory → node.children = some cs →
      Chain cs rest result → Chain items (node.name :: rest) result

/-- Instrumented variant of the `currentItems` walk that distinguishes a
failed lookup (`none`) from an empty level (`some []`). -/
def levelAt : List FileNode → List Str → Option (List FileNode)
  | items, [] => some items
  | items, folder :: rest =>
    match items.find? (fun i => i.name == folder && i.type == NodeType.directory) with
    | some found =>
      match found.children with
      | some cs => levelAt cs rest
      | none => none
    | none => none

/-- Concrete fixture: the `book.pdf` file node of the spec's scenario. -/
def demoFile : FileNode :=
  FileNode.mk "book.pdf".toList NodeType.file "Economics/book.pdf".toList
    (some ".pdf".toList) none

/-- Concrete fixture: the `Economics` directory node of the spec's
scenario. -/
def demoDir : FileNode :=
  FileNode.mk "Economics".toList NodeType.directory "Economics".toList none (some [demoFile])

/-- Concrete fixture: a non-PDF file node. -/
def demoOther : FileNode :=
  FileNode.mk "notes.txt".toList NodeType.file "notes.txt".toList (some ".txt".toList) none

/-- Concrete fixture: the loaded root forest of the spec's scenario. -/
def demoRoots : List FileNode := [demoDir]

/-- Concrete fixture: at the root with the active query `boo`. -/
def demoState : ExplorerState :=
  { rootFiles := demoRoots, currentPath := [], searchQuery := "boo".toList,
    showPdfViewer := false, currentPdfSrc := [] }

/-- Concrete fixture: at the root with no query. -/
def demoStateNoQuery : ExplorerState :=
  { rootFiles := demoRoots, currentPath := [], searchQuery := [],
    showPdfViewer := false, currentPdfSrc := [] }

/-- Concrete fixture: three path segments deep, no query. -/
def demoStateDeep : ExplorerState :=
  { rootFiles := demoRoots, currentPath := ["A".toList, "B".toList, "C".toList],
    searchQuery := [], showPdfViewer := false, currentPdfSrc := [] }

/-- Concrete fixture: inside `Economics` with the active query `boo`. -/
def demoStateAt : ExplorerState :=
  { rootFiles := demoRoots, currentPath := ["Economics".toList], searchQuery := "boo".toList,
    showPdfViewer := false, currentPdfSrc := [] }

/-- Concrete fixture: a navigation path whose only segment names no
directory. -/
def demoStateBad : ExplorerState :=
  { rootFiles := demoRoots, currentPath := ["Econ".toList], searchQuery := [],
    showPdfViewer := false, currentPdfSrc := [] }

/-- The model of `startsWith` means prefix: some suffix completes the query
to the whole string. -/
theorem strStartsWith_correct (s q : Str) :
    strStartsWith s q = true ↔ ∃ v : Str, q ++ v = s := by
  induction q generalizing s with
  | nil => simp [strStartsWith]
  | cons b bs ih =>
    cases s with
    | nil => simp [strStartsWith]
    | cons a t =>
      simp [strStartsWith, ih]
      intro x _
      exact eq_comm

/-- The model of `includes` means substring containment: the query occurs
contiguously inside the string. -/
theorem strIncludes_correct (s q : Str) :
    strIncludes s q = true ↔ ∃ u v : Str, u ++ q ++ v = s := by
  induction s with
  | nil => simp [strIncludes, List.isEmpty_iff]
  | cons a t ih =>
    simp [strIncludes, ih, strStartsWith_correct]
    constructor
    · rintro (⟨v, hv⟩ | ⟨u, v, huv⟩)
      · exact ⟨[], v, hv⟩
      · exact ⟨a :: u, v, by simp [huv]⟩
    · rintro ⟨u, v, huv⟩
      cases u with
      | nil => exact Or.inl ⟨v, by simpa using huv⟩
      | cons x xs =>
        obtain ⟨h1, h2⟩ := List.cons.inj huv
        exact Or.inr ⟨xs, v, h2⟩

/-- Lower-casing keeps a string's emptiness. -/
theorem toLower_isEmpty (s : Str) : (toLower s).isEmpty = s.isEmpty := by
  cases s <;> simp [toLower]

/-- Unfolding of `wfForest` on a non-empty level. -/
theorem wfForest_cons (node : FileNode) (rest : List FileNode)
    (h : wfForest (node :: rest) = true) :
    (match node.type, node.children with
     | NodeType.directory, some cs => wfForest cs
     | NodeType.directory, none => false
     | NodeType.file, none => true
     | NodeType.file, some _ => false) = true ∧
    rest.all (fun b => !(node.type == NodeType.directory && b.type == NodeType.directory
      && node.name == b.name)) = true ∧
    wfForest rest = true := by
  obtain ⟨n, t, p, e, c⟩ := node
  rw [wfForest.eq_def] at h
  simp only [Bool.and_eq_true] at h
  exact ⟨h.1.1, h.1.2, h.2⟩

/-- Well-formedness descends through the `children` field of a member of a
well-formed level. -/
theorem wfForest_children (items : List FileNode) (node : FileNode) (cs : List FileNode)
    (hwf : wfForest items = true) (hmem : node ∈ items) (hch : node.children = some cs) :
    wfForest cs = true := by
  induction items with
  | nil => cases hmem
  | cons head rest ih =>
    obtain ⟨h1, h2, h3⟩ := wfForest_cons head rest hwf
    rcases List.mem_cons.mp hmem with rfl | hmem
    · rw [hch] at h1
      cases htype : node.type with
      | directory => rw [htype] at h1; simpa using h1
      | file => rw [htype] at h1; simp at h1
    · exact ih h3 hmem

/-- In a well-formed level, the `find` call of `currentItems` locates exactly
a given member directory node when searching for its name. -/
theorem wfForest_find (items : List FileNode) (node : FileNode)
    (hwf : wfForest items = true) (hmem : node ∈ items)
    (hdir : node.type = NodeType.directory) :
    items.find? (fun i => i.name == node.name && i.type == NodeType.directory)
      = some node := by
  induction items with
  | nil => cases hmem
  | cons head rest ih =>
    obtain ⟨h1, h2, h3⟩ := wfForest_cons head rest hwf
    rcases List.mem_cons.mp hmem with rfl | hmem
    · simp [List.find?_cons, hdir]
    · rw [List.find?_cons]
      by_cases hp : (head.name == node.name && head.type == NodeType.directory) = true
      · exfalso
        simp only [Bool.and_eq_true, beq_iff_eq] at hp
        rw [List.all_eq_true] at h2
        have := h2 node hmem
        simp [hp.1, hp.2, hdir] at this
      · simp [hp]
        exact ih h3 hmem

/-- Walking an actual chain of directory nodes under the sibling-uniqueness
invariant lands exactly on the chain's final children sequence. -/
theorem resolvePath_of_chain (roots target : List FileNode) (segs : List Str)
    (hchain : Chain roots segs target) (hwf : wfForest roots = true) :
    resolvePath roots segs = target := by
  induction hchain with
  | nil items => rfl
  | cons items node cs rest result hmem hdir hch hc ih =>
    have hfind := wfForest_find items node hwf hmem hdir
    simp only [resolvePath, hfind, hch]
    exact ih (wfForest_children items node cs hwf hmem hch)

/-- On a well-formed forest the search walk agrees with filtering the full
pre-order node enumeration by the lower-cased inclusion test. -/
theorem search_eq_filter (q : Str) :
    ∀ ns : List FileNode, wfForest ns = true →
      searchRecursive ns q =
        (allNodes ns).filter (fun nd => strIncludes (toLower nd.name) q)
  | [], _ => by simp [searchRecursive, allNodes]
  | FileNode.mk n t p e c :: rest, hwf => by
    obtain ⟨h1, h2, h3⟩ := wfForest_cons (FileNode.mk n t p e c) rest hwf
    simp only [FileNode.type, FileNode.children] at h1
    have hrest := search_eq_filter q rest h3
    cases t with
    | directory =>
      cases c with
      | none => simp at h1
      | some cs =>
        have hcs := search_eq_filter q cs (by simpa using h1)
        simp only [searchRecursive, allNodes, List.filter_cons, List.filter_append,
          FileNode.name, hcs, hrest]
        by_cases hinc : strIncludes (toLower n) q = true <;> simp [hinc]
    | file =>
      cases c with
      | some cs => simp at h1
      | none =>
        simp only [searchRecursive, allNodes, List.filter_cons, FileNode.name, hrest]
        by_cases hinc : strIncludes (toLower n) q = true <;> simp [hinc]

/-- The `currentItems` walk equals the instrumented walk with failure read
back as the empty list. -/
theorem resolvePath_eq_levelAt (items : List FileNode) (segs : List Str) :
    resolvePath items segs = (levelAt items segs).getD [] := by
  induction segs generalizing items with
  | nil => rfl
  | cons folder rest ih =>
    simp only [resolvePath, levelAt]
    split
    · split
      · exact ih _
      · rfl
    · rfl

/-- The instrumented walk splits over path concatenation. -/
theorem levelAt_append (items : List FileNode) (pre post : List Str) :
    levelAt items (pre ++ post) = (levelAt items pre).bind (fun L => levelAt L post) := by
  induction pre generalizing items with
  | nil => simp [levelAt]
  | cons folder rest ih =>
    simp only [List.cons_append, levelAt]
    split
    · split
      · exact ih _
      · rfl
    · rfl

/-- C1 (Resolve correctness): for every path given as the sequence of names
along an actual chain of directory nodes starting at the root of a
well-formed tree, the `currentItems` computation over that navigation state
returns exactly the final directory's `children` sequence, in its original
order. -/
theorem resolve_correct (s : ExplorerState) (target : List FileNode)
    (hchain : Chain s.rootFiles s.currentPath target)
    (hwf : wfForest s.rootFiles = true) :
    currentItems s = target :=
  resolvePath_of_chain s.rootFiles target s.currentPath hchain hwf

/-- Witness for C1 on the spec's concrete scenario tree. -/
theorem resolve_correct_witness :
    wfForest demoStateAt.rootFiles = true ∧ currentItems demoStateAt = [demoFile] := by
  have hwf : wfForest demoStateAt.rootFiles = true := by
    simp [demoStateAt, demoRoots, demoDir, demoFile, wfForest]
  have hchain : Chain demoStateAt.rootFiles demoStateAt.currentPath [demoFile] :=
    Chain.cons demoRoots demoDir [demoFile] [] [demoFile]
      (List.mem_singleton.mpr rfl) rfl rfl (Chain.nil [demoFile])
  exact ⟨hwf, resolve_correct demoStateAt [demoFile] hchain hwf⟩

/-- C2 (Search completeness and order): for a non-empty query over a
well-formed tree, `filteredItems` equals the pre-order enumeration of every
node at any depth filtered by the case-folded substring test — so it contains
exactly the matching nodes, in pre-order, with no deduplication and no depth
or count limit; and the inclusion test means substring containment. -/
theorem search_complete_ordered (s : ExplorerState)
    (hq : s.searchQuery ≠ []) (hwf : wfForest s.rootFiles = true) :
    filteredItems s =
      (allNodes s.rootFiles).filter
        (fun nd => strIncludes (toLower nd.name) (toLower s.searchQuery)) ∧
    ∀ a b : Str, strIncludes a b = true ↔ ∃ u v : Str, u ++ b ++ v = a := by
  refine ⟨?_, strIncludes_correct⟩
  have hne : (toLower s.searchQuery).isEmpty = false := by
    rw [toLower_isEmpty, List.isEmpty_eq_false]
    exact hq
  simp only [filteredItems, hne, Bool.false_eq_true, if_false]
  exact search_eq_filter (toLower s.searchQuery) s.rootFiles hwf

/-- Witness for C2 with the query `boo` on the scenario tree. -/
theorem search_complete_ordered_witness :
    demoState.searchQuery ≠ [] ∧ wfForest demoState.rootFiles = true ∧
    filteredItems demoState =
      (allNodes demoState.rootFiles).filter
        (fun nd => strIncludes (toLower nd.name) (toLower demoState.searchQuery)) := by
  have h1 : demoState.searchQuery ≠ [] := by simp [demoState]
  have h2 : wfForest demoState.rootFiles = true := by
    simp [demoState, demoRoots, demoDir, demoFile, wfForest]
  exact ⟨h1, h2, (search_complete_ordered demoState h1 h2).1⟩

/-- C3 (Click dispatch): a directory item with a non-empty query replaces the
navigation state by the slash-split of the item's path (empty segments
discarded) and clears the query; a directory item with an empty query appends
the item's name; a `.pdf` file sets the viewer source to the fixed `./Files/`
prefix joined with the item's path and opens the preview; any other file
changes no state. -/
theorem click_dispatch (s : ExplorerState) (item : FileNode) :
    (item.type = NodeType.directory → s.searchQuery ≠ [] →
      handleItemClick s item =
        { s with currentPath := (List.splitOn '/' item.path).filter (fun p => !p.isEmpty),
                 searchQuery := [] }) ∧
    (item.type = NodeType.directory → s.searchQuery = [] →
      handleItemClick s item = { s with currentPath := s.currentPath ++ [item.name] }) ∧
    (item.type = NodeType.file → item.extension = some ".pdf".toList →
      handleItemClick s item =
        { s with currentPdfSrc := "./Files/".toList ++ item.path, showPdfViewer := true }) ∧
    (item.type = NodeType.file → item.extension ≠ some ".pdf".toList →
      handleItemClick s item = s) := by
  refine ⟨?_, ?_, ?_, ?_⟩ <;> intro h1 h2
  · simp [handleItemClick, h1, h2, beq_iff_eq, List.isEmpty_eq_false]
  · simp [handleItemClick, h1, h2, beq_iff_eq]
  · simp [handleItemClick, h1, h2, beq_iff_eq]
  · simp [handleItemClick, h1]
    intro hc
    exact absurd hc (by simpa using h2)

/-- Witness for C3: all four dispatch rules at concrete inputs. -/
theorem click_dispatch_witness :
    (handleItemClick demoState demoDir =
      { demoState with
          currentPath := (List.splitOn '/' demoDir.path).filter (fun p => !p.isEmpty),
          searchQuery := [] }) ∧
    (handleItemClick demoStateNoQuery demoDir =
      { demoStateNoQuery with
          currentPath := demoStateNoQuery.currentPath ++ [demoDir.name] }) ∧
    (handleItemClick demoStateNoQuery demoFile =
      { demoStateNoQuery with
          currentPdfSrc := "./Files/".toList ++ demoFile.path, showPdfViewer := true }) ∧
    handleItemClick demoStateNoQuery demoOther = demoStateNoQuery := by
  refine ⟨?_, ?_, ?_, ?_⟩
  · exact (click_dispatch demoState demoDir).1 rfl (by simp [demoState])
  · exact (click_dispatch demoStateNoQuery demoDir).2.1 rfl rfl
  · exact (click_dispatch demoStateNoQuery demoFile).2.2.1 rfl rfl
  · exact (click_dispatch demoStateNoQuery demoOther).2.2.2 rfl (by decide)

/-- C4 (Resolve invalidity): when some segment of the navigation path fails
at its level — no directory of that name is found, or the one found lacks a
`children` field — `currentItems` returns the empty sequence, silently. -/
theorem resolve_invalid (s : ExplorerState) (L : List FileNode)
    (pre post : List Str) (seg : Str)
    (hpath : s.currentPath = pre ++ seg :: post)
    (hlevel : levelAt s.rootFiles pre = some L)
    (hfail : L.find? (fun i => i.name == seg && i.type == NodeType.directory) = none ∨
      ∃ found, L.find? (fun i => i.name == seg && i.type == NodeType.directory) = some found ∧
        found.children = none) :
    currentItems s = [] := by
  rw [currentItems, hpath, resolvePath_eq_levelAt, levelAt_append, hlevel, Option.some_bind]
  rcases hfail with hnone | ⟨found, hfound, hch⟩
  · simp [levelAt, hnone]
  · simp [levelAt, hfound, hch]

/-- Witness for C4: the segment `Econ` matches no directory at the root. -/
theorem resolve_invalid_witness :
    demoStateBad.currentPath = [] ++ "Econ".toList :: [] ∧
    levelAt demoStateBad.rootFiles [] = some demoRoots ∧
    demoRoots.find? (fun i => i.name == "Econ".toList && i.type == NodeType.directory)
      = none ∧
    currentItems demoStateBad = [] := by
  have h0 : demoStateBad.currentPath = [] ++ "Econ".toList :: [] := rfl
  have h1 : levelAt demoStateBad.rootFiles [] = some demoRoots := rfl
  have h2 : demoRoots.find?
      (fun i => i.name == "Econ".toList && i.type == NodeType.directory) = none := by
    simp [demoRoots, demoDir, FileNode.name, FileNode.type]
  exact ⟨h0, h1, h2,
    resolve_invalid demoStateBad demoRoots [] [] "Econ".toList h0 h1 (Or.inl h2)⟩

/-- C5 (JumpTo truncation): `navigateTo (-1)` empties the navigation state
regardless of prior depth, and for any breadcrumb index `0 ≤ k < depth`,
`navigateTo k` keeps exactly the first `k + 1` segments. -/
theorem jumpTo_truncation (s : ExplorerState) (k : Int) :
    (navigateTo s (-1)).currentPath = [] ∧
    (0 ≤ k → k < (s.currentPath.length : Int) →
      (navigateTo s k).currentPath = s.currentPath.take (k.toNat + 1)) := by
  constructor
  · simp [navigateTo]
  · intro hk hlt
    have hne : k ≠ -1 := by omega
    have h1 : ¬ (k + 1 < 0) := by omega
    simp [navigateTo, hne, sliceTo, h1]
    congr 1
    omega

/-- Witness for C5 at index 1 of a depth-3 navigation state. -/
theorem jumpTo_truncation_witness :
    (0 : Int) ≤ 1 ∧ (1 : Int) < (demoStateDeep.currentPath.length : Int) ∧
    (navigateTo demoStateDeep 1).currentPath
      = demoStateDeep.currentPath.take ((1 : Int).toNat + 1) := by
  have h1 : (0 : Int) ≤ 1 := by decide
  have h2 : (1 : Int) < (demoStateDeep.currentPath.length : Int) := by simp [demoStateDeep]
  exact ⟨h1, h2, (jumpTo_truncation demoStateDeep 1).2 h1 h2⟩

/-- C6 (Navigation round-trip): entering a folder by clicking a directory
item with no active query and then going back restores the prior state
exactly, and going back at the root is a no-op. -/
theorem enter_back_roundtrip (s : ExplorerState) (item : FileNode)
    (hdir : item.type = NodeType.directory) (hq : s.searchQuery = []) :
    goBack (handleItemClick s item) = s ∧
    (s.currentPath = [] → goBack s = s) := by
  constructor
  · have hempty : s.searchQuery.isEmpty = true := by simp [hq]
    simp [handleItemClick, hdir, hempty, goBack]
  · intro hp
    simp [goBack, hp]

/-- Witness for C6 on the scenario tree. -/
theorem enter_back_roundtrip_witness :
    demoDir.type = NodeType.directory ∧ demoStateNoQuery.searchQuery = [] ∧
    goBack (handleItemClick demoStateNoQuery demoDir) = demoStateNoQuery := by
  exact ⟨rfl, rfl, (enter_back_roundtrip demoStateNoQuery demoDir rfl rfl).1⟩

/-- C7 (Search emptiness): with an empty query, the visible list equals
`currentItems` of the current navigation state, not the full tree. -/
theorem search_empty_query (s : ExplorerState) (hq : s.searchQuery = []) :
    filteredItems s = currentItems s := by
  simp [filteredItems, hq, toLower]

/-- Witness for C7. -/
theorem search_empty_query_witness :
    demoStateNoQuery.searchQuery = [] ∧
    filteredItems demoStateNoQuery = currentItems demoStateNoQuery :=
  ⟨rfl, search_empty_query demoStateNoQuery rfl⟩

/-- C8 (Search independent of location): for a fixed tree and a fixed
non-empty query, two runs of `filteredItems` from any two navigation states
produce the same result — the result depends only on the tree and the
query. -/
theorem search_location_independent (s1 s2 : ExplorerState)
    (hroot : s1.rootFiles = s2.rootFiles) (hq : s1.searchQuery = s2.searchQuery)
    (hne : s1.searchQuery ≠ []) :
    filteredItems s1 = filteredItems s2 := by
  have h1 : (toLower s1.searchQuery).isEmpty = false := by
    rw [toLower_isEmpty, List.isEmpty_eq_false]; exact hne
  have h2 : (toLower s2.searchQuery).isEmpty = false := by
    rw [toLower_isEmpty, List.isEmpty_eq_false, ← hq]; exact hne
  simp only [filteredItems, h1, h2, Bool.false_eq_true, if_false, hroot, hq]

/-- Witness for C8: the same query at the root and inside `Economics`. -/
theorem search_location_independent_witness :
    demoState.rootFiles = demoStateAt.rootFiles ∧
    demoState.searchQuery = demoStateAt.searchQuery ∧
    demoState.searchQuery ≠ [] ∧
    filteredItems demoState = filteredItems demoStateAt := by
  refine ⟨rfl, rfl, by simp [demoState], ?_⟩
  exact search_location_independent demoState demoStateAt rfl rfl (by simp [demoState])

/-- C9 (Tree immutability): every state transition — clicking any item,
going back, and jumping along the breadcrumb — leaves `rootFiles` unchanged;
the derived views `currentItems` and `filteredItems` are pure functions of
the state and change nothing. -/
theorem tree_immutable (s : ExplorerState) (item : FileNode) (i : Int) :
    (handleItemClick s item).rootFiles = s.rootFiles ∧
    (goBack s).rootFiles = s.rootFiles ∧
    (navigateTo s i).rootFiles = s.rootFiles := by
  refine ⟨?_, ?_, ?_⟩
  · simp only [handleItemClick]
    split
    · split <;> rfl
    · split <;> rfl
  · simp only [goBack]
    split <;> rfl
  · simp only [navigateTo]
    split <;> rfl

/-- C10 (JumpTo below -1): for an index `i ≤ -2`, `navigateTo i` follows
JavaScript slice semantics — it keeps all but the last `-(i+1)` segments, so
it does not reset to the root, it empties the path exactly when `-(i+1)`
reaches the depth, and `navigateTo (-2)` coincides with `goBack`. -/
theorem jumpTo_negative (s : ExplorerState) (i : Int) :
    (i ≤ -2 →
      (navigateTo s i).currentPath =
        s.currentPath.take (s.currentPath.length - (-(i + 1)).toNat) ∧
      ((navigateTo s i).currentPath = [] ↔
        s.currentPath.length ≤ (-(i + 1)).toNat)) ∧
    navigateTo s (-2) = goBack s := by
  constructor
  · intro hi
    have hne : i ≠ -1 := by omega
    have hneg : i + 1 < 0 := by omega
    constructor
    · simp [navigateTo, hne, sliceTo, hneg]
    · simp [navigateTo, hne, sliceTo, hneg]
      constructor
      · rintro (h | h)
        · omega
        · simp [h]
      · intro h
        left
        omega
  · obtain ⟨rf, cp, sq, sv, ps⟩ := s
    have hne : (-2 : Int) ≠ -1 := by decide
    simp only [navigateTo, hne, if_false, sliceTo, goBack]
    cases cp with
    | nil => simp
    | cons a t =>
      simp [List.dropLast_eq_take]

/-- Witness for C10 at index -3 of a depth-3 navigation state. -/
theorem jumpTo_negative_witness :
    (-3 : Int) ≤ -2 ∧
    (navigateTo demoStateDeep (-3)).currentPath =
      demoStateDeep.currentPath.take
        (demoStateDeep.currentPath.length - (-((-3 : Int) + 1)).toNat) := by
  have h1 : (-3 : Int) ≤ -2 := by decide
  exact ⟨h1, ((jumpTo_negative demoStateDeep (-3)).1 h1).1⟩
